import Mathlib

/-!
Verification development for the Dedupe-Archived-Files duplicate-detection
pipeline: a shallow embedding of `src/core/hasher.py`, `src/core/extractor.py`,
`src/core/scanner.py` and `src/core/database.py`, with theorems about the
two-tier hashing strategy, the archive walker's handler policy, and the
persistent index.

Byte contents are `List Nat`; a stream is the list of chunks that successive
`read` calls deliver, or `none` when reading raises.  The xxh3_64 hasher is
modelled abstractly: its state is the list of bytes fed to it so far and the
hex digest is that accumulated list itself — an injective idealization of the
64-bit digest (spec section 4.1 treats residual collisions of the
non-cryptographic hash as outside the matching logic).
-/

namespace Dedupe

/-- Configuration of `HashCalculator` (`src/core/hasher.py`, `__init__`). -/
structure HashCalculator where
  partial_hash_threshold : Nat
  partial_hash_size : Nat
  chunk_size : Nat
deriving DecidableEq

/-- State of an `xxhash.xxh3_64()` hasher object, modelled as the bytes fed to
`update` so far. -/
structure XXH3 where
  acc : List Nat
deriving DecidableEq

/-- Fresh hasher, `xxhash.xxh3_64()`. -/
def XXH3.init : XXH3 := ⟨[]⟩

/-- `hasher.update(chunk)`. -/
def XXH3.update (h : XXH3) (chunk : List Nat) : XXH3 := ⟨h.acc ++ chunk⟩

/-- `hasher.hexdigest()`, modelled as the accumulated bytes (injective digest
idealization). -/
def XXH3.hexdigest (h : XXH3) : List Nat := h.acc

/-- Chunks actually consumed by a `while chunk := stream.read(...)` loop:
reading stops at the first empty chunk (end of stream). -/
def readChunks : List (List Nat) → List (List Nat)
  | [] => []
  | c :: cs => if c = [] then [] else c :: readChunks cs

/-- Read loop of `HashCalculator._compute_full_hash` (hasher.py lines 100-102):
repeatedly read up to `csize` bytes from the remaining content `rest` and feed
them to the hasher; an empty read ends the loop (a read size of 0 returns no
bytes at once, so the loop body never runs in that case). -/
def readLoop (csize : Nat) (h : XXH3) (rest : List Nat) : XXH3 :=
  if hcs : csize = 0 then h
  else if hr : rest = [] then h
  else readLoop csize (h.update (rest.take csize)) (rest.drop csize)
termination_by rest.length
decreasing_by
  have h1 : 0 < csize := Nat.pos_of_ne_zero hcs
  have h2 : 0 < rest.length := List.length_pos.mpr hr
  simp only [List.length_drop]
  omega

/-- `HashCalculator._compute_full_hash` (hasher.py lines 96-104) for a
readable file with the given byte content. -/
def compute_full_hash (hc : HashCalculator) (content : List Nat) : List Nat :=
  (readLoop hc.chunk_size XXH3.init content).hexdigest

/-- `HashCalculator._compute_partial_hash` (hasher.py lines 86-94): hash the
first `partial_hash_size` bytes of the file. -/
def compute_partial_hash (hc : HashCalculator) (content : List Nat) : List Nat :=
  (XXH3.init.update (content.take hc.partial_hash_size)).hexdigest

/-- `HashCalculator._compute_full_hash_stream` (hasher.py lines 106-113): the
argument is the list of chunks the stream's successive reads deliver. -/
def compute_full_hash_stream (hc : HashCalculator)
    (chunks : List (List Nat)) : List Nat :=
  ((readChunks chunks).foldl XXH3.update XXH3.init).hexdigest

/-- Loop body of `HashCalculator._compute_dual_hash_stream` (hasher.py lines
120-129): every chunk goes to the full hasher; a chunk also feeds the quick
hasher with its first `psize - bytes_read` bytes while `bytes_read < psize`.
Returns (full hasher, quick hasher). -/
def dualLoop (psize : Nat) (fullh quickh : XXH3) (bytesRead : Nat) :
    List (List Nat) → XXH3 × XXH3
  | [] => (fullh, quickh)
  | c :: cs =>
      dualLoop psize (fullh.update c)
        (if bytesRead < psize then quickh.update (c.take (psize - bytesRead))
         else quickh)
        (bytesRead + c.length) cs

/-- `HashCalculator._compute_dual_hash_stream` (hasher.py lines 115-131):
single pass over the stream's chunks computing (full digest, quick digest). -/
def compute_dual_hash_stream (hc : HashCalculator)
    (chunks : List (List Nat)) : List Nat × List Nat :=
  let p := dualLoop hc.partial_hash_size XXH3.init XXH3.init 0
    (readChunks chunks)
  (p.1.hexdigest, p.2.hexdigest)

/-- `HashCalculator.hash_file` (hasher.py lines 30-62) for a readable file
with the given byte content; `file_size` is the size the caller supplies (the
target scanner passes the stat size). -/
def hash_file (hc : HashCalculator) (content : List Nat) (file_size : Nat) :
    Option (List Nat) × Option (List Nat) :=
  if file_size < hc.partial_hash_threshold then
    (some (compute_full_hash hc content), none)
  else
    (none, some (compute_partial_hash hc content))

/-- `HashCalculator.hash_stream` (hasher.py lines 64-84).  `stream` is `none`
when reading the stream raises (the except branch returns `(None, None)`);
otherwise it is the list of chunks successive reads deliver.  `size` is the
optional reported size. -/
def hash_stream (hc : HashCalculator) (stream : Option (List (List Nat)))
    (size : Option Nat) : Option (List Nat) × Option (List Nat) :=
  match stream with
  | none => (none, none)
  | some chunks =>
    match size with
    | some n =>
        if hc.partial_hash_threshold ≤ n then
          (some (compute_dual_hash_stream hc chunks).1,
           some (compute_dual_hash_stream hc chunks).2)
        else
          (some (compute_full_hash_stream hc chunks), none)
    | none => (some (compute_full_hash_stream hc chunks), none)

/-- `HashCalculator.compute_full_hash_for_quick` (hasher.py lines 133-148):
re-hash a file end to end; `none` models the I/O-error branch. -/
def compute_full_hash_for_quick (hc : HashCalculator)
    (content : Option (List Nat)) : Option (List Nat) :=
  content.map (compute_full_hash hc)

/-- `FileEntry` (`src/core/models.py` lines 9-18): one file found inside a
source archive, as stored in the `files` table. -/
structure FileEntry where
  full_hash : Option (List Nat)
  quick_hash : Option (List Nat)
  filename : String
  path_in_archive : String
  source_archive : Option String
  size : Nat
  is_nested_archive : Bool
deriving DecidableEq

/-- `ArchiveInfo` (`src/core/models.py` lines 40-60), scalar fields. -/
structure ArchiveInfo where
  path : String
  mtime : Int
  size : Nat
  last_scanned : Option Int
  file_count : Nat
deriving DecidableEq

/-- Row of the `selection_state` table (`src/core/database.py` lines 103-110),
primary key (file_hash, target_path). -/
structure SelectionRow where
  file_hash : List Nat
  target_path : String
  selected : Bool
deriving DecidableEq

/-- `DuplicateMatch` (`src/core/models.py` lines 26-32). -/
structure DuplicateMatch where
  source_file : FileEntry
  target_path : String
  target_size : Nat
  selected_for_deletion : Bool
deriving DecidableEq

/-- The natural key of the `files` table, `UNIQUE(source_archive,
path_in_archive)` (`src/core/database.py` line 71). -/
def sameKey (a b : FileEntry) : Bool :=
  decide (a.source_archive = b.source_archive ∧
    a.path_in_archive = b.path_in_archive)

/-- `DatabaseManager.add_file` (`src/core/database.py` lines 187-208): the
files table is a list of rows in insertion order, and `INSERT OR REPLACE` on
the unique key deletes the conflicting row and appends the new one. -/
def add_file (db : List FileEntry) (fe : FileEntry) : List FileEntry :=
  db.filter (fun r => !(sameKey r fe)) ++ [fe]

/-- `DatabaseManager.add_files_batch` (`src/core/database.py` lines 210-230):
`INSERT OR REPLACE` applied to each record in order. -/
def add_files_batch (db : List FileEntry) (fes : List FileEntry) :
    List FileEntry :=
  fes.foldl add_file db

/-- `DatabaseManager.find_by_full_hash` (`src/core/database.py` lines
232-241); a SQL `=` comparison never matches a NULL column. -/
def find_by_full_hash (db : List FileEntry) (h : List Nat) : List FileEntry :=
  db.filter (fun r => decide (r.full_hash = some h))

/-- `DatabaseManager.find_by_quick_hash` (`src/core/database.py` lines
243-252). -/
def find_by_quick_hash (db : List FileEntry) (h : List Nat) : List FileEntry :=
  db.filter (fun r => decide (r.quick_hash = some h))

/-- `DatabaseManager.check_quick_hash_exists` (`src/core/database.py` lines
254-258). -/
def check_quick_hash_exists (db : List FileEntry) (h : List Nat) : Bool :=
  db.any (fun r => decide (r.quick_hash = some h))

/-- `DatabaseManager.update_full_hash` (`src/core/database.py` lines 260-267):
`UPDATE files SET full_hash = ? WHERE source_archive = ? AND
path_in_archive = ?`. -/
def update_full_hash (db : List FileEntry) (sa pia : String)
    (fh : List Nat) : List FileEntry :=
  db.map (fun r =>
    if r.source_archive = some sa ∧ r.path_in_archive = pia then
      { r with full_hash := some fh }
    else r)

/-- `DatabaseManager.get_selection_state` (`src/core/database.py` lines
287-296); the composite primary key keeps at most one row per pair. -/
def get_selection_state (sel : List SelectionRow) (h : List Nat)
    (p : String) : Option Bool :=
  (sel.find? (fun s => decide (s.file_hash = h ∧ s.target_path = p))).map
    SelectionRow.selected

/-- ASCII lower-casing of one character, as `str.lower()` acts on the ASCII
range. -/
def lowerChar (c : Char) : Char :=
  if 65 ≤ c.toNat ∧ c.toNat ≤ 90 then Char.ofNat (c.toNat + 32) else c

/-- `str.lower()` (ASCII model). -/
def str_lower (s : String) : String := ⟨s.data.map lowerChar⟩

/-- `str.endswith`, as a suffix test on the character lists. -/
def ends_with (s p : String) : Bool :=
  decide (s.data.drop (s.data.length - p.data.length) = p.data) &&
    decide (p.data.length ≤ s.data.length)

/-- Splitting a character list at `/` separators. -/
def splitSlash : List Char → List (List Char)
  | [] => [[]]
  | c :: cs =>
    match splitSlash cs with
    | [] => [[]]
    | g :: gs => if c = '/' then [] :: g :: gs else (c :: g) :: gs

/-- `Path(p).name`: the last `/`-separated component of the path. -/
def path_name (p : String) : String :=
  ⟨(splitSlash p.data).getLastD p.data⟩

/-- `ArchiveExtractor.ARCHIVE_EXTENSIONS` (`src/core/extractor.py` lines
63-81). -/
def ARCHIVE_EXTENSIONS : List String :=
  [".zip", ".jar", ".war", ".ear", ".zipx",
   ".7z",
   ".rar",
   ".tar", ".tar.gz", ".tgz", ".tar.bz2", ".tbz2", ".tar.xz", ".txz",
   ".tar.zst", ".tzst",
   ".rpm", ".deb", ".msi", ".cab", ".ar", ".xar", ".pkg",
   ".exe", ".appimage", ".run",
   ".iso", ".img", ".dmg", ".vmdk", ".vdi", ".vhd", ".squashfs",
   ".cpio", ".wim", ".lzh", ".lha", ".lz"]

/-- `ArchiveExtractor.is_archive` (`src/core/extractor.py` lines 92-102):
lower-cased base name ends with one of the recognized extensions. -/
def is_archive (filename : String) : Bool :=
  ARCHIVE_EXTENSIONS.any (fun ext =>
    ends_with (str_lower (path_name filename)) ext)

/-- One entry yielded by the archive walker: `(path_in_archive, file_stream,
size, is_nested_archive)` (`src/core/extractor.py` line 147).  The stream is
the chunk sequence its reads deliver, `none` if reading it raises. -/
structure ScanEntry where
  path_in_archive : String
  stream : Option (List (List Nat))
  size : Nat
  is_nested_archive : Bool
deriving DecidableEq

/-- Observable behaviour of one handler attempt inside
`ArchiveExtractor.extract_archive`: the entries it yielded in order, and
whether it raised an exception afterwards (before the first yield when
`yielded = []`). -/
structure HandlerRun where
  yielded : List ScanEntry
  raised : Bool
deriving DecidableEq

/-- Handler loop of `ArchiveExtractor.extract_archive` (`src/core/extractor.py`
lines 216-253): handlers are tried in order; a handler that yields nothing
(StopIteration or an exception before the first yield) is skipped and the next
one tried; once a handler yields its first entry the walker commits to it,
yields the rest of its entries, and breaks — entries yielded before a
mid-stream exception stand, and no exception propagates to the caller. -/
def extract_archive_runs : List HandlerRun → List ScanEntry
  | [] => []
  | r :: rest => if r.yielded = [] then extract_archive_runs rest else r.yielded

/-- Number of handlers whose generator is started by the loop of
`extract_archive`: every skipped handler plus the committed one. -/
def handlers_invoked : List HandlerRun → Nat
  | [] => 0
  | r :: rest => if r.yielded = [] then 1 + handlers_invoked rest else 1

/-- `ArchiveExtractor._extract_nested` (`src/core/extractor.py` lines
841-847): prefix every relative path produced by the recursive
`extract_archive` call with the nested archive's own entry name and `/`. -/
def extract_nested (original_name : String) (entries : List ScanEntry) :
    List ScanEntry :=
  entries.map (fun e =>
    { e with path_in_archive := original_name ++ "/" ++ e.path_in_archive })

/-- One iteration of the entry loop of `ArchiveExtractor._extract_zip`
(`src/core/extractor.py` lines 259-285) for an entry with the given name and
raw bytes: the entry itself is yielded first (its stream over its bytes, its
size, and the name-based nested-archive flag); when the name is archive-like
and the current depth is below `max_recursion_depth`, the entries the
recursive `extract_archive` call yields on the buffered bytes (`inner`, at
depth + 1) follow, each path prefixed by `_extract_nested`. -/
def extract_zip_entry (max_recursion_depth recursion_depth : Nat)
    (name : String) (data : List Nat) (inner : List ScanEntry) :
    List ScanEntry :=
  let is_nested := is_archive name
  ⟨name, some [data], data.length, is_nested⟩ ::
    (if is_nested && decide (recursion_depth < max_recursion_depth) then
      extract_nested name inner
    else [])

/-- Fields of `AppConfig` (`src/core/models.py` lines 82-99) read by the scan
pipeline modelled here. -/
structure AppConfig where
  auto_select_duplicates : Bool
  min_file_size : Nat
  partial_hash_threshold : Nat
  partial_hash_size : Nat
deriving DecidableEq

/-- The `HashCalculator` both scanners build from the configuration
(`src/core/scanner.py` lines 34-37 and 205-208); `chunk_size` keeps its
default 65536. -/
def scanner_hasher (cfg : AppConfig) : HashCalculator :=
  ⟨cfg.partial_hash_threshold, cfg.partial_hash_size, 65536⟩

/-- Entry loop of `SourceScanner._scan_archive` (`src/core/scanner.py` lines
130-149): skip entries below `min_file_size`, hash each remaining entry's
stream with its known size, and build a `FileEntry` exactly when at least one
of the two hashes is non-absent. -/
def scan_archive_entries (cfg : AppConfig) (archive_path : String)
    (entries : List ScanEntry) : List FileEntry :=
  entries.filterMap (fun e =>
    if e.size < cfg.min_file_size then none
    else
      let p := hash_stream (scanner_hasher cfg) e.stream (some e.size)
      if p.1.isSome || p.2.isSome then
        some { full_hash := p.1, quick_hash := p.2,
               filename := path_name e.path_in_archive,
               path_in_archive := e.path_in_archive,
               source_archive := some archive_path,
               size := e.size,
               is_nested_archive := e.is_nested_archive }
      else none)

/-- The `FileEntry` that `_scan_archive` builds for one kept entry
(`src/core/scanner.py` lines 139-147). -/
def scan_record (cfg : AppConfig) (archive_path : String)
    (e : ScanEntry) : FileEntry :=
  { full_hash := (hash_stream (scanner_hasher cfg) e.stream (some e.size)).1,
    quick_hash := (hash_stream (scanner_hasher cfg) e.stream (some e.size)).2,
    filename := path_name e.path_in_archive,
    path_in_archive := e.path_in_archive,
    source_archive := some archive_path,
    size := e.size,
    is_nested_archive := e.is_nested_archive }

/-- Characterization of which walker entries `_scan_archive` persists: at
least `min_file_size` bytes and at least one non-absent hash. -/
def persisted (cfg : AppConfig) (e : ScanEntry) : Bool :=
  decide (cfg.min_file_size ≤ e.size) &&
    ((hash_stream (scanner_hasher cfg) e.stream (some e.size)).1.isSome ||
     (hash_stream (scanner_hasher cfg) e.stream (some e.size)).2.isSome)

/-- `SourceScanner._scan_archive` (`src/core/scanner.py` lines 126-187) after
the rescan check: extract the archive (the handler loop over `runs`), hash and
collect the file entries, store them with `add_files_batch`, and return the
new database list together with the `ArchiveInfo` whose `file_count` is the
number of collected entries. -/
def scan_archive (cfg : AppConfig) (db : List FileEntry)
    (archive_path : String) (mtime : Int) (size : Nat)
    (runs : List HandlerRun) : List FileEntry × ArchiveInfo :=
  let records := scan_archive_entries cfg archive_path
    (extract_archive_runs runs)
  (add_files_batch db records,
   { path := archive_path, mtime := mtime, size := size,
     last_scanned := none, file_count := records.length })

/-- `TargetScanner._check_file` (`src/core/scanner.py` lines 289-351) for a
readable target file with the given stable byte content (the quick-hash
branch re-reads the same file from disk, so `compute_full_hash_for_quick`
receives the same content). -/
def check_file (cfg : AppConfig) (db : List FileEntry)
    (sel : List SelectionRow) (filepath : String) (content : List Nat) :
    List DuplicateMatch :=
  let hasher := scanner_hasher cfg
  let file_size := content.length
  match hash_file hasher content file_size with
  | (some full_hash, _) =>
      (find_by_full_hash db full_hash).map (fun sf =>
        { source_file := sf, target_path := filepath,
          target_size := file_size,
          selected_for_deletion :=
            (get_selection_state sel full_hash filepath).getD
              cfg.auto_select_duplicates })
  | (none, some quick_hash) =>
      if check_quick_hash_exists db quick_hash then
        match compute_full_hash_for_quick hasher (some content) with
        | some full_hash =>
            (find_by_full_hash db full_hash).map (fun sf =>
              { source_file := sf, target_path := filepath,
                target_size := file_size,
                selected_for_deletion :=
                  (get_selection_state sel full_hash filepath).getD
                    cfg.auto_select_duplicates })
        | none => []
      else []
  | (none, none) => []

theorem XXH3.update_nil (h : XXH3) : h.update [] = h := by
  cases h; simp [XXH3.update]

theorem XXH3.update_update (h : XXH3) (a b : List Nat) :
    (h.update a).update b = h.update (a ++ b) := by
  cases h; simp [XXH3.update]

theorem XXH3.hexdigest_init_update (l : List Nat) :
    (XXH3.init.update l).hexdigest = l := by
  simp [XXH3.init, XXH3.update, XXH3.hexdigest]

theorem readChunks_eq_self (chunks : List (List Nat))
    (h : ∀ c ∈ chunks, c ≠ []) : readChunks chunks = chunks := by
  induction chunks with
  | nil => rfl
  | cons c cs ih =>
      have hc : c ≠ [] := h c (List.mem_cons_self c cs)
      simp only [readChunks, if_neg hc]
      exact congrArg (c :: ·) (ih fun x hx => h x (List.mem_cons_of_mem c hx))

theorem readLoop_eq (csize : Nat) (hpos : 0 < csize) :
    ∀ rest st, readLoop csize st rest = st.update rest := by
  have main : ∀ n (rest : List Nat), rest.length ≤ n →
      ∀ st, readLoop csize st rest = st.update rest := by
    intro n
    induction n with
    | zero =>
        intro rest hlen st
        have : rest = [] := List.eq_nil_of_length_eq_zero (Nat.le_zero.mp hlen)
        subst this
        rw [readLoop]
        simp [Nat.pos_iff_ne_zero.mp hpos, XXH3.update_nil]
    | succ n ih =>
        intro rest hlen st
        rw [readLoop]
        rcases eq_or_ne rest [] with hr | hr
        · subst hr
          simp [Nat.pos_iff_ne_zero.mp hpos, XXH3.update_nil]
        · simp only [dif_neg (Nat.pos_iff_ne_zero.mp hpos), dif_neg hr]
          have hdrop : (rest.drop csize).length ≤ n := by
            have h2 : 0 < rest.length := List.length_pos.mpr hr
            simp only [List.length_drop]
            omega
          rw [ih (rest.drop csize) hdrop, XXH3.update_update,
            List.take_append_drop]
  intro rest st
  exact main rest.length rest (le_refl _) st

theorem compute_full_hash_eq (hc : HashCalculator) (content : List Nat)
    (h : 0 < hc.chunk_size) : compute_full_hash hc content = content := by
  rw [compute_full_hash, readLoop_eq hc.chunk_size h content XXH3.init,
    XXH3.hexdigest_init_update]

theorem compute_partial_hash_eq (hc : HashCalculator) (content : List Nat) :
    compute_partial_hash hc content = content.take hc.partial_hash_size :=
  XXH3.hexdigest_init_update _

theorem dualLoop_spec (psize : Nat) :
    ∀ (cs : List (List Nat)) (fullh quickh : XXH3) (bytesRead : Nat),
      dualLoop psize fullh quickh bytesRead cs =
        (fullh.update cs.flatten,
         quickh.update (cs.flatten.take (psize - bytesRead))) := by
  intro cs
  induction cs with
  | nil =>
      intro fullh quickh bytesRead
      simp [dualLoop, XXH3.update_nil]
  | cons c cs ih =>
      intro fullh quickh bytesRead
      rw [dualLoop, ih]
      rcases Nat.lt_or_ge bytesRead psize with hlt | hge
      · rw [if_pos hlt, XXH3.update_update, XXH3.update_update]
        refine Prod.ext rfl ?_
        simp only [List.flatten_cons]
        rw [List.take_append_eq_append_take]
        have : psize - bytesRead - c.length = psize - (bytesRead + c.length) := by
          omega
        rw [this]
      · rw [if_neg (Nat.not_lt.mpr hge)]
        refine Prod.ext (by rw [XXH3.update_update]; rfl) ?_
        have h1 : psize - bytesRead = 0 := Nat.sub_eq_zero_of_le hge
        have h2 : psize - (bytesRead + c.length) = 0 := by omega
        simp [h1, h2, XXH3.update_nil]

theorem compute_dual_hash_stream_eq (hc : HashCalculator)
    (chunks : List (List Nat)) :
    compute_dual_hash_stream hc chunks =
      ((readChunks chunks).flatten,
       (readChunks chunks).flatten.take hc.partial_hash_size) := by
  rw [compute_dual_hash_stream]
  simp only [dualLoop_spec, Nat.sub_zero, XXH3.hexdigest_init_update]

theorem sameKey_self (a : FileEntry) : sameKey a a = true := by
  simp [sameKey]

theorem filter_not_filter {α : Type} (p : α → Bool) (l : List α) :
    (l.filter (fun a => !(p a))).filter p = [] := by
  induction l with
  | nil => rfl
  | cons a l ih =>
      cases hpa : p a <;> simp [List.filter_cons, hpa, ih]

theorem scan_archive_entries_eq (cfg : AppConfig) (archive_path : String)
    (entries : List ScanEntry) :
    scan_archive_entries cfg archive_path entries =
      (entries.filter (persisted cfg)).map (scan_record cfg archive_path) := by
  induction entries with
  | nil => rfl
  | cons e es ih =>
      rw [scan_archive_entries] at ih ⊢
      rw [List.filterMap_cons, List.filter_cons]
      by_cases h1 : e.size < cfg.min_file_size
      · have hp : persisted cfg e = false := by
          simp [persisted, Nat.not_le.mpr h1]
        rw [if_pos h1, hp]
        simpa using ih
      · rw [if_neg h1]
        by_cases h2 :
            ((hash_stream (scanner_hasher cfg) e.stream (some e.size)).1.isSome ||
             (hash_stream (scanner_hasher cfg) e.stream (some e.size)).2.isSome) = true
        · have hp : persisted cfg e = true := by
            simp [persisted, Nat.le_of_not_lt h1, h2]
          simp only [h2, if_true, hp]
          rw [List.map_cons]
          exact congrArg _ ih
        · have h2f :
              ((hash_stream (scanner_hasher cfg) e.stream (some e.size)).1.isSome ||
               (hash_stream (scanner_hasher cfg) e.stream (some e.size)).2.isSome) = false :=
            Bool.eq_false_iff.mpr h2
          have hp : persisted cfg e = false := by
            simp [persisted, h2f]
          simp only [h2f, if_false, Bool.false_eq_true, hp]
          simpa using ih

/-- C4: the quick hash computed from a file path by hashing the first
`partial_hash_size` bytes (`_compute_partial_hash`) equals the quick-hash
component of the single-pass dual computation (`_compute_dual_hash_stream`)
over the same content, for every way the stream delivers that content as
(nonempty) chunks. -/
theorem c4_dual_quick_eq_partial (hc : HashCalculator)
    (chunks : List (List Nat)) (hne : ∀ c ∈ chunks, c ≠ []) :
    (compute_dual_hash_stream hc chunks).2 =
      compute_partial_hash hc chunks.flatten := by
  rw [compute_dual_hash_stream_eq, readChunks_eq_self chunks hne,
    compute_partial_hash_eq]

/-- Witness for C4 at a concrete two-chunk delivery of the content
[1, 2, 3]. -/
theorem c4_dual_quick_eq_partial_witness :
    (compute_dual_hash_stream ⟨4, 2, 8⟩ [[1], [2, 3]]).2 =
      compute_partial_hash ⟨4, 2, 8⟩ [[1], [2, 3]].flatten :=
  c4_dual_quick_eq_partial ⟨4, 2, 8⟩ [[1], [2, 3]] (by decide)

/-- C6: with the size known, `hash_file` on a file of size exactly
`partial_hash_threshold` takes the quick-hash path and returns
(None, quickHash), while on a file one byte below the threshold it takes the
full-hash path and returns (fullHash, None). -/
theorem c6_threshold_boundary (hc : HashCalculator) (content : List Nat)
    (hpos : 0 < hc.partial_hash_threshold) :
    (content.length = hc.partial_hash_threshold →
      hash_file hc content content.length =
        (none, some (compute_partial_hash hc content))) ∧
    (content.length = hc.partial_hash_threshold - 1 →
      hash_file hc content content.length =
        (some (compute_full_hash hc content), none)) := by
  constructor
  · intro h
    rw [hash_file, if_neg (by omega)]
  · intro h
    rw [hash_file, if_pos (by omega)]

/-- Witness for C6 with threshold 2: a 2-byte file is quick-hashed, a 1-byte
file is full-hashed. -/
theorem c6_threshold_boundary_witness :
    (hash_file ⟨2, 1, 65536⟩ [7, 7] 2 =
      (none, some (compute_partial_hash ⟨2, 1, 65536⟩ [7, 7]))) ∧
    (hash_file ⟨2, 1, 65536⟩ [9] 1 =
      (some (compute_full_hash ⟨2, 1, 65536⟩ [9]), none)) :=
  ⟨(c6_threshold_boundary ⟨2, 1, 65536⟩ [7, 7] (by decide)).1 (by decide),
   (c6_threshold_boundary ⟨2, 1, 65536⟩ [9] (by decide)).2 (by decide)⟩

/-- C5: handlers are tried in order; all handlers before the first one that
yields are invoked, and once a handler has yielded at least one entry the
walker commits to it — later handlers are never invoked, even when the
committed handler raises mid-stream (its `raised` flag is unconstrained, and
the yielded entries stand); a handler that raises before yielding anything
just makes the loop move on to the next handler. -/
theorem c5_handler_commit (pre post : List HandlerRun) (r : HandlerRun)
    (hpre : ∀ p ∈ pre, p.yielded = []) (hr : r.yielded ≠ []) :
    (extract_archive_runs (pre ++ r :: post) = r.yielded ∧
     handlers_invoked (pre ++ r :: post) = pre.length + 1) ∧
    (∀ (b : Bool) (rest : List HandlerRun),
      extract_archive_runs (⟨[], b⟩ :: rest) = extract_archive_runs rest ∧
      handlers_invoked (⟨[], b⟩ :: rest) = 1 + handlers_invoked rest) := by
  constructor
  · induction pre with
    | nil =>
        simp [extract_archive_runs, handlers_invoked, hr]
    | cons p ps ih =>
        have hp : p.yielded = [] := hpre p (List.mem_cons_self p ps)
        have ih2 := ih fun q hq => hpre q (List.mem_cons_of_mem p hq)
        constructor
        · rw [List.cons_append, extract_archive_runs, if_pos hp]
          exact ih2.1
        · rw [List.cons_append, handlers_invoked, if_pos hp, ih2.2]
          simp [Nat.add_comm, Nat.add_assoc]
  · intro b rest
    exact ⟨by rw [extract_archive_runs]; simp,
           by rw [handlers_invoked]; simp⟩

/-- Witness for C5: a first handler that raises before yielding is skipped, a
second handler that yields one entry and then raises mid-stream is committed
to, and a third handler that would yield is never reached. -/
theorem c5_handler_commit_witness :
    extract_archive_runs
        ([⟨[], true⟩] ++ ⟨[⟨"x.txt", some [[1]], 1, false⟩], true⟩ ::
          [⟨[⟨"y.txt", some [[2]], 1, false⟩], false⟩]) =
      [⟨"x.txt", some [[1]], 1, false⟩] ∧
    handlers_invoked
        ([⟨[], true⟩] ++ ⟨[⟨"x.txt", some [[1]], 1, false⟩], true⟩ ::
          [⟨[⟨"y.txt", some [[2]], 1, false⟩], false⟩]) =
      [(⟨[], true⟩ : HandlerRun)].length + 1 :=
  (c5_handler_commit [⟨[], true⟩] [⟨[⟨"y.txt", some [[2]], 1, false⟩], false⟩]
    ⟨[⟨"x.txt", some [[1]], 1, false⟩], true⟩ (by decide) (by decide)).1

/-- C3: an archive on which every handler attempt yields nothing (for example
corrupt zip bytes, where every handler raises before its first yield) makes
`extract_archive` produce zero entries instead of raising, and
`_scan_archive` still completes: no file records are added and the resulting
`ArchiveInfo` has `file_count = 0`. -/
theorem c3_corrupt_archive_zero_entries (cfg : AppConfig)
    (db : List FileEntry) (archive_path : String) (mtime : Int) (size : Nat)
    (runs : List HandlerRun) (hfail : ∀ r ∈ runs, r.yielded = []) :
    extract_archive_runs runs = [] ∧
    (scan_archive cfg db archive_path mtime size runs).1 = db ∧
    (scan_archive cfg db archive_path mtime size runs).2.file_count = 0 := by
  have hext : extract_archive_runs runs = [] := by
    induction runs with
    | nil => rfl
    | cons r rest ih =>
        have hr := hfail r (List.mem_cons_self r rest)
        rw [extract_archive_runs, if_pos hr]
        exact ih fun q hq => hfail q (List.mem_cons_of_mem r hq)
  refine ⟨hext, ?_, ?_⟩ <;>
    simp [scan_archive, hext, scan_archive_entries, add_files_batch]

/-- Witness for C3: two handler attempts (a zip handler raising on the
corrupt bytes, then the carving fallback finding nothing) produce zero
entries, leave the database unchanged and record a file count of 0. -/
theorem c3_corrupt_archive_zero_entries_witness :
    extract_archive_runs [⟨[], true⟩, ⟨[], true⟩] = [] ∧
    (scan_archive ⟨true, 0, 2, 1⟩ [] "bad.zip" 0 8
      [⟨[], true⟩, ⟨[], true⟩]).1 = [] ∧
    (scan_archive ⟨true, 0, 2, 1⟩ [] "bad.zip" 0 8
      [⟨[], true⟩, ⟨[], true⟩]).2.file_count = 0 :=
  c3_corrupt_archive_zero_entries ⟨true, 0, 2, 1⟩ [] "bad.zip" 0 8
    [⟨[], true⟩, ⟨[], true⟩] (by decide)

/-- C7: every entry produced for a nested archive has its relative path equal
to the nested archive's own entry name, then "/", then the entry's path
inside the nested archive (`_extract_nested`); in particular, walking the
entry `inner.zip` of `outer.zip`, whose own extraction yields `deep.txt`,
yields the combined path `inner.zip/deep.txt` (depth 0, maximum depth 10). -/
theorem c7_nested_path_prefix :
    (∀ (name : String) (entries : List ScanEntry) (e2 : ScanEntry),
      e2 ∈ extract_nested name entries →
      ∃ e ∈ entries,
        e2.path_in_archive = name ++ "/" ++ e.path_in_archive) ∧
    extract_zip_entry 10 0 "inner.zip" [80, 75, 3, 4]
        [⟨"deep.txt", some [[100]], 1, false⟩] =
      [⟨"inner.zip", some [[80, 75, 3, 4]], 4, true⟩,
       ⟨"inner.zip/deep.txt", some [[100]], 1, false⟩] := by
  constructor
  · intro name entries e2 h2
    rcases List.mem_map.mp h2 with ⟨e, he, heq⟩
    exact ⟨e, he, by rw [← heq]⟩
  · decide

/-- Witness for C7's universally quantified part at the scenario instance. -/
theorem c7_nested_path_prefix_witness :
    ∃ e ∈ [(⟨"deep.txt", some [[100]], 1, false⟩ : ScanEntry)],
      (⟨"inner.zip/deep.txt", some [[100]], 1, false⟩ :
          ScanEntry).path_in_archive =
        "inner.zip" ++ "/" ++ e.path_in_archive :=
  c7_nested_path_prefix.1 "inner.zip" [⟨"deep.txt", some [[100]], 1, false⟩]
    ⟨"inner.zip/deep.txt", some [[100]], 1, false⟩ (by decide)

/-- C8: inserting two records with the same (source_archive, path_in_archive)
key but different hashes leaves the files table with exactly one record for
that key, namely the second insert (whose hash fields therefore win). -/
theorem c8_replacement (db : List FileEntry) (r1 r2 : FileEntry)
    (hsa : r1.source_archive = r2.source_archive)
    (hpia : r1.path_in_archive = r2.path_in_archive)
    (hdiff : r1.full_hash ≠ r2.full_hash ∨ r1.quick_hash ≠ r2.quick_hash) :
    (add_files_batch db [r1, r2]).filter (fun r => sameKey r r2) = [r2] ∧
    (add_files_batch db [r1, r2]).filter (fun r => sameKey r r1) = [r2] := by
  have h2 :
      (add_files_batch db [r1, r2]).filter (fun r => sameKey r r2) = [r2] := by
    have hstep : add_files_batch db [r1, r2] = add_file (add_file db r1) r2 :=
      rfl
    rw [hstep, add_file, List.filter_append, filter_not_filter]
    simp [List.filter_cons, sameKey_self]
  refine ⟨h2, ?_⟩
  have hk : ∀ x ∈ add_files_batch db [r1, r2],
      (fun r => sameKey r r1) x = (fun r => sameKey r r2) x := by
    intro x _
    simp [sameKey, hsa, hpia]
  rw [List.filter_congr hk, h2]

/-- Witness for C8: two same-key inserts with different full hashes into an
empty table leave exactly the second record for that key. -/
theorem c8_replacement_witness :
    (add_files_batch []
        [⟨some [1], none, "f", "p/f", some "A.zip", 5, false⟩,
         ⟨some [2], none, "f", "p/f", some "A.zip", 5, false⟩]).filter
      (fun r => sameKey r ⟨some [2], none, "f", "p/f", some "A.zip", 5, false⟩) =
    [⟨some [2], none, "f", "p/f", some "A.zip", 5, false⟩] ∧
    (add_files_batch []
        [⟨some [1], none, "f", "p/f", some "A.zip", 5, false⟩,
         ⟨some [2], none, "f", "p/f", some "A.zip", 5, false⟩]).filter
      (fun r => sameKey r ⟨some [1], none, "f", "p/f", some "A.zip", 5, false⟩) =
    [⟨some [2], none, "f", "p/f", some "A.zip", 5, false⟩] :=
  c8_replacement [] ⟨some [1], none, "f", "p/f", some "A.zip", 5, false⟩
    ⟨some [2], none, "f", "p/f", some "A.zip", 5, false⟩
    (by decide) (by decide) (Or.inl (by decide))

/-- C9: after `update_full_hash` (upgradeHash) on the key of a stored record
that has a quick hash, `find_by_full_hash` with the new hash returns the
upgraded record, and `find_by_quick_hash` with the record's original quick
hash still returns it. -/
theorem c9_upgrade_roundtrip (db : List FileEntry) (r : FileEntry)
    (sa pia : String) (q fh : List Nat)
    (hmem : r ∈ db) (hsa : r.source_archive = some sa)
    (hpia : r.path_in_archive = pia) (hq : r.quick_hash = some q) :
    { r with full_hash := some fh } ∈
        find_by_full_hash (update_full_hash db sa pia fh) fh ∧
    { r with full_hash := some fh } ∈
        find_by_quick_hash (update_full_hash db sa pia fh) q := by
  have hmap : { r with full_hash := some fh } ∈
      update_full_hash db sa pia fh := by
    rw [update_full_hash]
    have hmm := List.mem_map_of_mem
      (f := fun x : FileEntry =>
        if x.source_archive = some sa ∧ x.path_in_archive = pia then
          { x with full_hash := some fh }
        else x) hmem
    simpa [hsa, hpia] using hmm
  exact ⟨List.mem_filter.mpr ⟨hmap, by simp⟩,
         List.mem_filter.mpr ⟨hmap, by simp [hq]⟩⟩

/-- Witness for C9 on a one-row table holding a quick-hash-only record. -/
theorem c9_upgrade_roundtrip_witness :
    ({ (⟨none, some [3], "f.bin", "p/f.bin", some "A.zip", 9, false⟩ :
        FileEntry) with full_hash := some [4, 5] } ∈
      find_by_full_hash
        (update_full_hash
          [⟨none, some [3], "f.bin", "p/f.bin", some "A.zip", 9, false⟩]
          "A.zip" "p/f.bin" [4, 5]) [4, 5]) ∧
    ({ (⟨none, some [3], "f.bin", "p/f.bin", some "A.zip", 9, false⟩ :
        FileEntry) with full_hash := some [4, 5] } ∈
      find_by_quick_hash
        (update_full_hash
          [⟨none, some [3], "f.bin", "p/f.bin", some "A.zip", 9, false⟩]
          "A.zip" "p/f.bin" [4, 5]) [3]) :=
  c9_upgrade_roundtrip
    [⟨none, some [3], "f.bin", "p/f.bin", some "A.zip", 9, false⟩]
    ⟨none, some [3], "f.bin", "p/f.bin", some "A.zip", 9, false⟩
    "A.zip" "p/f.bin" [3] [4, 5]
    (by decide) (by decide) (by decide) (by decide)

/-- C10: the source scan builds and persists a record for a walker entry
exactly when hashing yields at least one non-absent hash (and the entry meets
the minimum size), so every persisted record has a full or a quick hash, the
archive's file count equals the number of such entries, and an entry whose
hashing fails entirely is silently dropped. -/
theorem c10_persisted_iff_hashed (cfg : AppConfig) (archive_path : String)
    (entries : List ScanEntry) :
    (∀ r ∈ scan_archive_entries cfg archive_path entries,
      r.full_hash.isSome = true ∨ r.quick_hash.isSome = true) ∧
    (scan_archive_entries cfg archive_path entries).length =
      (entries.filter (persisted cfg)).length ∧
    (∀ e : ScanEntry, e.stream = none →
      scan_archive_entries cfg archive_path [e] = []) := by
  refine ⟨?_, ?_, ?_⟩
  · intro r hr
    rw [scan_archive_entries_eq] at hr
    rcases List.mem_map.mp hr with ⟨e, hef, heq⟩
    have hp := (List.mem_filter.mp hef).2
    rw [persisted, Bool.and_eq_true, Bool.or_eq_true] at hp
    subst heq
    exact hp.2
  · rw [scan_archive_entries_eq, List.length_map]
  · intro e he
    by_cases h1 : e.size < cfg.min_file_size <;>
      simp [scan_archive_entries, he, hash_stream, h1]

/-- Witness for C10: a persisted record of a concrete scan has a hash, and an
entry whose stream raised is dropped. -/
theorem c10_persisted_iff_hashed_witness :
    ((⟨some [1, 2, 3], some [1], "a.txt", "a.txt", some "src.zip", 3, false⟩ :
        FileEntry).full_hash.isSome = true ∨
     (⟨some [1, 2, 3], some [1], "a.txt", "a.txt", some "src.zip", 3, false⟩ :
        FileEntry).quick_hash.isSome = true) ∧
    scan_archive_entries ⟨true, 0, 2, 1⟩ "src.zip"
      [⟨"bad.bin", none, 3, false⟩] = [] :=
  ⟨(c10_persisted_iff_hashed ⟨true, 0, 2, 1⟩ "src.zip"
      [⟨"a.txt", some [[1, 2, 3]], 3, false⟩]).1
    ⟨some [1, 2, 3], some [1], "a.txt", "a.txt", some "src.zip", 3, false⟩
    (by decide),
   (c10_persisted_iff_hashed ⟨true, 0, 2, 1⟩ "src.zip" []).2.2
    ⟨"bad.bin", none, 3, false⟩ (by decide)⟩

/-- C1 counterexample: the claim that a record at or above the threshold has
no full hash at insertion time is false — with threshold 2, the scan of a
3-byte archive entry stores a record whose `full_hash` is present, because
`hash_stream` on a known-size stream at or above the threshold computes both
hashes in a single pass. -/
theorem c1_counterexample :
    ¬ (∀ (cfg : AppConfig) (archive_path : String)
        (entries : List ScanEntry) (r : FileEntry),
        r ∈ scan_archive_entries cfg archive_path entries →
        cfg.partial_hash_threshold ≤ r.size → r.full_hash = none) := by
  intro hclaim
  have h := hclaim ⟨true, 0, 2, 1⟩ "src.zip"
    [⟨"a.txt", some [[1, 2, 3]], 3, false⟩]
    ⟨some [1, 2, 3], some [1], "a.txt", "a.txt", some "src.zip", 3, false⟩
    (by decide) (by decide)
  exact absurd h (by decide)

/-- C1 (amended): for every record the source scan inserts into the Index, at
or above `partial_hash_threshold` both the quick hash and the full hash are
present at insertion time (the stream is hashed in a single dual pass);
below the threshold the full hash is present and the quick hash is absent. -/
theorem c1_insertion_hash_invariant (cfg : AppConfig) (archive_path : String)
    (entries : List ScanEntry) (r : FileEntry)
    (hr : r ∈ scan_archive_entries cfg archive_path entries) :
    (cfg.partial_hash_threshold ≤ r.size →
      r.quick_hash.isSome = true ∧ r.full_hash.isSome = true) ∧
    (r.size < cfg.partial_hash_threshold →
      r.full_hash.isSome = true ∧ r.quick_hash = none) := by
  rw [scan_archive_entries_eq] at hr
  rcases List.mem_map.mp hr with ⟨e, hef, heq⟩
  have hp := (List.mem_filter.mp hef).2
  subst heq
  rcases hstream : e.stream with _ | chunks
  · exfalso
    rw [persisted, hstream] at hp
    simp [hash_stream] at hp
  · constructor
    · intro hge
      have hge2 : (scanner_hasher cfg).partial_hash_threshold ≤ e.size := hge
      constructor <;>
        simp [scan_record, hash_stream, hstream, if_pos hge2]
    · intro hlt
      have hlt2 : ¬ (scanner_hasher cfg).partial_hash_threshold ≤ e.size :=
        Nat.not_le.mpr hlt
      constructor <;>
        simp [scan_record, hash_stream, hstream, if_neg hlt2]

/-- Witness for C1 (amended): with threshold 2, a 3-byte entry is stored with
both hashes, a 1-byte entry with only the full hash. -/
theorem c1_insertion_hash_invariant_witness :
    ((⟨some [1, 2, 3], some [1], "a.txt", "a.txt", some "src.zip", 3, false⟩ :
        FileEntry).quick_hash.isSome = true ∧
     (⟨some [1, 2, 3], some [1], "a.txt", "a.txt", some "src.zip", 3, false⟩ :
        FileEntry).full_hash.isSome = true) ∧
    ((⟨some [9], none, "b.txt", "b.txt", some "src.zip", 1, false⟩ :
        FileEntry).full_hash.isSome = true ∧
     (⟨some [9], none, "b.txt", "b.txt", some "src.zip", 1, false⟩ :
        FileEntry).quick_hash = none) :=
  ⟨(c1_insertion_hash_invariant ⟨true, 0, 2, 1⟩ "src.zip"
      [⟨"a.txt", some [[1, 2, 3]], 3, false⟩]
      ⟨some [1, 2, 3], some [1], "a.txt", "a.txt", some "src.zip", 3, false⟩
      (by decide)).1 (by decide),
   (c1_insertion_hash_invariant ⟨true, 0, 2, 1⟩ "src.zip"
      [⟨"b.txt", some [[9]], 1, false⟩]
      ⟨some [9], none, "b.txt", "b.txt", some "src.zip", 1, false⟩
      (by decide)).2 (by decide)⟩

/-- C2: for a target file whose hashing yields only a quick hash (size at or
above the threshold), `_check_file` produces a match only when
`check_quick_hash_exists` on that quick hash is true and the full hash then
computed from the target file on disk equals the `full_hash` of a stored
source record; consequently a stored record whose full hash is that of
byte-different content is never matched, and a stored record carrying the
target content's full and quick hashes is matched. -/
theorem c2_large_file_matching (cfg : AppConfig) (db : List FileEntry)
    (sel : List SelectionRow) (filepath : String) (content : List Nat)
    (hlarge : cfg.partial_hash_threshold ≤ content.length) :
    (∀ m ∈ check_file cfg db sel filepath content,
      check_quick_hash_exists db
          (compute_partial_hash (scanner_hasher cfg) content) = true ∧
      m.source_file ∈ db ∧
      m.source_file.full_hash =
        some (compute_full_hash (scanner_hasher cfg) content)) ∧
    (∀ (other : List Nat) (r : FileEntry), other ≠ content →
      r.full_hash = some (compute_full_hash (scanner_hasher cfg) other) →
      ∀ m ∈ check_file cfg db sel filepath content, m.source_file ≠ r) ∧
    (∀ r ∈ db,
      r.full_hash = some (compute_full_hash (scanner_hasher cfg) content) →
      r.quick_hash =
        some (compute_partial_hash (scanner_hasher cfg) content) →
      ∃ m ∈ check_file cfg db sel filepath content, m.source_file = r) := by
  have hcs : 0 < (scanner_hasher cfg).chunk_size := by
    simp [scanner_hasher]
  have hnotlt :
      ¬ content.length < (scanner_hasher cfg).partial_hash_threshold :=
    Nat.not_lt.mpr hlarge
  have hhf : hash_file (scanner_hasher cfg) content content.length =
      (none, some (compute_partial_hash (scanner_hasher cfg) content)) := by
    rw [hash_file, if_neg hnotlt]
  have hcheck : check_file cfg db sel filepath content =
      (if check_quick_hash_exists db
          (compute_partial_hash (scanner_hasher cfg) content) then
        (find_by_full_hash db
            (compute_full_hash (scanner_hasher cfg) content)).map (fun sf =>
          { source_file := sf, target_path := filepath,
            target_size := content.length,
            selected_for_deletion :=
              (get_selection_state sel
                (compute_full_hash (scanner_hasher cfg) content)
                filepath).getD cfg.auto_select_duplicates })
      else []) := by
    simp only [check_file, hhf, compute_full_hash_for_quick, Option.map]
  have ha : ∀ m ∈ check_file cfg db sel filepath content,
      check_quick_hash_exists db
          (compute_partial_hash (scanner_hasher cfg) content) = true ∧
      m.source_file ∈ db ∧
      m.source_file.full_hash =
        some (compute_full_hash (scanner_hasher cfg) content) := by
    intro m hm
    rw [hcheck] at hm
    by_cases hex : check_quick_hash_exists db
        (compute_partial_hash (scanner_hasher cfg) content) = true
    · rw [if_pos hex] at hm
      rcases List.mem_map.mp hm with ⟨sf, hsf, rfl⟩
      have hsf2 := List.mem_filter.mp hsf
      exact ⟨hex, hsf2.1, of_decide_eq_true hsf2.2⟩
    · rw [if_neg hex] at hm
      exact absurd hm (List.not_mem_nil m)
  refine ⟨ha, ?_, ?_⟩
  · intro other r hne hrf m hm heq
    have h3 := ha m hm
    rw [heq] at h3
    have hsome : some (compute_full_hash (scanner_hasher cfg) other) =
        some (compute_full_hash (scanner_hasher cfg) content) := by
      rw [← hrf, h3.2.2]
    rw [compute_full_hash_eq _ _ hcs, compute_full_hash_eq _ _ hcs] at hsome
    exact hne (Option.some.inj hsome)
  · intro r hrdb hrf hrq
    have hex : check_quick_hash_exists db
        (compute_partial_hash (scanner_hasher cfg) content) = true := by
      rw [check_quick_hash_exists, List.any_eq_true]
      exact ⟨r, hrdb, by simp [hrq]⟩
    rw [hcheck, if_pos hex]
    exact ⟨_, List.mem_map_of_mem _
      (List.mem_filter.mpr ⟨hrdb, by simp [hrf]⟩), rfl⟩

/-- Witness for C2: with threshold 2, the 3-byte target content [5, 6, 7] is
matched to the stored record that carries its full and quick hashes. -/
theorem c2_large_file_matching_witness :
    ∃ m ∈ check_file ⟨true, 0, 2, 1⟩
        [⟨some [5, 6, 7], some [5], "b.bin", "b.bin", some "s.zip", 3, false⟩]
        [] "t.bin" [5, 6, 7],
      m.source_file =
        ⟨some [5, 6, 7], some [5], "b.bin", "b.bin", some "s.zip", 3, false⟩ :=
  (c2_large_file_matching ⟨true, 0, 2, 1⟩
    [⟨some [5, 6, 7], some [5], "b.bin", "b.bin", some "s.zip", 3, false⟩]
    [] "t.bin" [5, 6, 7] (by decide)).2.2
    ⟨some [5, 6, 7], some [5], "b.bin", "b.bin", some "s.zip", 3, false⟩
    (by decide)
    (by rw [compute_full_hash_eq _ _ (by decide)])
    (by decide)

end Dedupe
